import Mathlib

/-!
Shallow embedding of the `Field2D` 2D-grid utility (`src/field2d.rs`) and of the
day-12 heightmap shortest-path solver (`src/bin/day12.rs`) of the
`advent_of_code_2022` repository, together with proofs about them.

Modelling conventions:
* Rust `usize` values are modelled as `Nat`; the `usize::MAX` sentinel is the
  explicit constant `UMAX = 2^64 - 1`.
* A Rust operation that can panic (failed `assert!`, out-of-bounds `Vec` index,
  division by zero, `Option::unwrap` of `None`) is modelled as an
  `Option`-returning function, `none` meaning the panic.
* The Dijkstra loops of day 12 are modelled with an explicit fuel parameter;
  `none` means the fuel ran out.  A sufficiency theorem shows the chosen fuel
  never runs out, so the fuelled function is total on the modelled loop.
-/

/-- The `Field2D<T>` struct: a flat row-major vector of values plus a width. -/
structure Field2D (α : Type) where
  values : List α
  width : Nat
deriving DecidableEq

/-- The `derive(Default)` instance of `Field2D`: empty vector, width 0. -/
def Field2D.default (α : Type) : Field2D α := ⟨[], 0⟩

namespace Field2D

variable {α : Type} {ρ : Type}

/-- The `height()` method, `self.values.len() / self.width`, as the total
mathematical quotient (Nat division). -/
def height (f : Field2D α) : Nat := f.values.length / f.width

/-- The `height()` method with Rust panic semantics: usize division by zero
panics, so the result is `none` when `width = 0`. -/
def heightChecked (f : Field2D α) : Option Nat :=
  if f.width = 0 then none else some (f.values.length / f.width)

/-- The `len()` method: `self.width() * self.height()`, with the panic of
`height()` propagated. -/
def lenChecked (f : Field2D α) : Option Nat :=
  f.heightChecked.map (fun h => f.width * h)

/-- The `add_row` method: append one row of `width` default values. -/
def addRow [Inhabited α] (f : Field2D α) : Field2D α :=
  { f with values := f.values ++ List.replicate f.width (Inhabited.default : α) }

/-- The `new_empty` constructor: start from an empty vector and call
`add_row` `height` times. -/
def newEmpty [Inhabited α] (width height : Nat) : Field2D α :=
  match height with
  | 0 => ⟨[], width⟩
  | h + 1 => (newEmpty width h).addRow

/-- The `new_with_value` constructor: push `width * height` copies of `value`. -/
def newWithValue (width height : Nat) (value : α) : Field2D α :=
  ⟨List.replicate (width * height) value, width⟩

/-- The `parse` associated function: `None` on empty input, otherwise the first
row fixes the width and all parsed rows are concatenated. -/
def parse (rows : List ρ) (p : ρ → List α) : Option (Field2D α) :=
  match rows with
  | [] => none
  | first :: rest =>
    let res := p first
    let width := res.length
    some ⟨res ++ (rest.map p).flatten, width⟩

/-- The `iter_with_position` method: enumerate the flat vector and pair each
value with `(idx % width, idx / width)`. -/
def iterWithPosition (f : Field2D α) : List ((Nat × Nat) × α) :=
  f.values.enum.map (fun iv => ((iv.1 % f.width, iv.1 / f.width), iv.2))

/-- The `Index` impl: `assert!(x < width)`, `assert!(y < height)` (whose
`height()` call panics when `width = 0`), then `values[x + y * width]`.
Any panic is `none`. -/
def indexChecked (f : Field2D α) (x y : Nat) : Option α :=
  if x < f.width then
    f.heightChecked.bind (fun h =>
      if y < h then f.values[x + y * f.width]? else none)
  else none

/-- The `IndexMut` impl used for assignment `f[(x, y)] = v`: same asserts as
`Index`, then `values[x + y * width] = v`.  Any panic is `none`. -/
def setChecked (f : Field2D α) (x y : Nat) (v : α) : Option (Field2D α) :=
  if x < f.width then
    f.heightChecked.bind (fun h =>
      if y < h then
        if x + y * f.width < f.values.length then
          some { f with values := f.values.set (x + y * f.width) v }
        else none
      else none)
  else none

/-- Total variant of indexing a `Field2D Nat`, defaulting to 0 out of range;
used inside the day-12 search loops, whose accesses are all in bounds. -/
def get0 (f : Field2D Nat) (p : Nat × Nat) : Nat :=
  f.values.getD (p.1 + p.2 * f.width) 0

/-- Total variant of assignment (out-of-range assignment is a no-op); used
inside the day-12 search loops, whose accesses are all in bounds. -/
def setAt (f : Field2D Nat) (p : Nat × Nat) (v : Nat) : Field2D Nat :=
  { f with values := f.values.set (p.1 + p.2 * f.width) v }

end Field2D

/-- The cursor states of `NeighborIter`, in the order they are visited. -/
inductive NeighborIterState where
  | Right | Down | Left | Up | UpLeft | UpRight | DownRight | DownLeft | Done
deriving DecidableEq

/-- The `NeighborIter` struct: grid dimensions, origin, diagonal flag and
cursor state. -/
structure NeighborIter where
  fieldSize : Nat × Nat
  pos : Nat × Nat
  diag : Bool
  state : NeighborIterState
deriving DecidableEq

namespace NeighborIter

/-- The `dx` match arm of `NeighborIter::cur` (the `Done` arm is handled by
the caller). -/
def dxOf : NeighborIterState → Int
  | .Right | .UpRight | .DownRight => 1
  | .Left | .UpLeft | .DownLeft => -1
  | _ => 0

/-- The `dy` match arm of `NeighborIter::cur`. -/
def dyOf : NeighborIterState → Int
  | .Up | .UpLeft | .UpRight => -1
  | .Down | .DownLeft | .DownRight => 1
  | _ => 0

/-- The `NeighborIter::cur` method: the candidate coordinate for the current
cursor state, or `none` when it would leave the grid. -/
def cur (it : NeighborIter) : Option (Nat × Nat) :=
  if it.state = NeighborIterState.Done then none
  else
    let dx : Int := dxOf it.state
    let dy : Int := dyOf it.state
    if dx = -1 ∧ it.pos.1 = 0 then none
    else if dx = 1 ∧ it.pos.1 = it.fieldSize.1 - 1 then none
    else if dy = -1 ∧ it.pos.2 = 0 then none
    else if dy = 1 ∧ it.pos.2 = it.fieldSize.2 - 1 then none
    else some (((it.pos.1 : Int) + dx).toNat, ((it.pos.2 : Int) + dy).toNat)

/-- The `NeighborIter::advance` method: step the cursor to the next state. -/
def advance (it : NeighborIter) : NeighborIter :=
  { it with
    state :=
      match it.state with
      | .Right => .Down
      | .Down => .Left
      | .Left => .Up
      | .Up => if it.diag then .UpLeft else .Done
      | .UpLeft => .UpRight
      | .UpRight => .DownRight
      | .DownRight => .DownLeft
      | .DownLeft => .Done
      | .Done => .Done }

/-- Collect the remaining items of the iterator (its `Iterator::next` loop:
skip states whose `cur` is `none`, stop at `Done`).  The fuel only needs to
cover the 9 cursor states. -/
def toList : NeighborIter → Nat → List (Nat × Nat)
  | _, 0 => []
  | it, fuel + 1 =>
    if it.state = NeighborIterState.Done then []
    else
      match it.cur with
      | some v => v :: it.advance.toList fuel
      | none => it.advance.toList fuel

end NeighborIter

namespace Field2D

variable {α : Type}

/-- The `neighbors` method: a fresh orthogonal iterator over this grid's
dimensions (this calls `height()`, which is total only for `width > 0`;
see `neighborsChecked`). -/
def neighbors (f : Field2D α) (x y : Nat) : NeighborIter :=
  ⟨(f.width, f.height), (x, y), false, NeighborIterState.Right⟩

/-- The `neighbors_diag` method: a fresh 8-way iterator. -/
def neighborsDiag (f : Field2D α) (x y : Nat) : NeighborIter :=
  ⟨(f.width, f.height), (x, y), true, NeighborIterState.Right⟩

/-- The `neighbors` method with the panic of its `height()` call made
explicit: `none` when `width = 0`. -/
def neighborsChecked (f : Field2D α) (x y : Nat) : Option NeighborIter :=
  f.heightChecked.map (fun h => ⟨(f.width, h), (x, y), false, NeighborIterState.Right⟩)

/-- The `neighbors_diag` method with the panic of its `height()` call made
explicit. -/
def neighborsDiagChecked (f : Field2D α) (x y : Nat) : Option NeighborIter :=
  f.heightChecked.map (fun h => ⟨(f.width, h), (x, y), true, NeighborIterState.Right⟩)

/-- All coordinates yielded by `neighbors(x, y)`. -/
def neighborsList (f : Field2D α) (x y : Nat) : List (Nat × Nat) :=
  (f.neighbors x y).toList 9

/-- All coordinates yielded by `neighbors_diag(x, y)`. -/
def neighborsDiagList (f : Field2D α) (x y : Nat) : List (Nat × Nat) :=
  (f.neighborsDiag x y).toList 9

end Field2D

namespace Day12

/-- The per-character elevation mapping of the `Heightmap::from_lines` parser
closure: `'S' ↦ 1`, `'E' ↦ 26`, any other char `h ↦ h as u8 - b'a'`. -/
def charElev (h : Char) : Nat :=
  if h = 'S' then 1 else if h = 'E' then 26 else h.toNat - 'a'.toNat

/-- The `Heightmap` struct of day 12. -/
structure Heightmap where
  start : Nat × Nat
  goal : Nat × Nat
  map : Field2D Nat
deriving DecidableEq

/-- One row of the `from_lines` parser closure: map `chars().enumerate()`
through the elevation mapping, recording the last seen `S` and `E`
coordinates in the captured state `(start, goal)`. -/
def scanRow (lineIdx : Nat) :
    Nat → List Char → Option (Nat × Nat) × Option (Nat × Nat) →
    (Option (Nat × Nat) × Option (Nat × Nat)) × List Nat
  | _, [], st => (st, [])
  | i, c :: cs, (s, g) =>
    let next :
        (Option (Nat × Nat) × Option (Nat × Nat)) × Nat :=
      if c = 'S' then ((some (i, lineIdx), g), 1)
      else if c = 'E' then ((s, some (i, lineIdx)), 26)
      else ((s, g), c.toNat - 'a'.toNat)
    let rest := scanRow lineIdx (i + 1) cs next.1
    (rest.1, next.2 :: rest.2)

/-- The remaining rows of the `from_lines` parser: apply the closure to each
line in order, incrementing `line_idx`. -/
def scanRows :
    Nat → List String → Option (Nat × Nat) × Option (Nat × Nat) →
    (Option (Nat × Nat) × Option (Nat × Nat)) × List (List Nat)
  | _, [], st => (st, [])
  | li, l :: ls, st =>
    let row := scanRow li 0 l.toList st
    let rest := scanRows (li + 1) ls row.1
    (rest.1, row.2 :: rest.2)

/-- The `Heightmap::from_lines` constructor: run `Field2D::parse` with the
stateful closure (first row fixes the width), then `unwrap` the parse result
and the recorded `start`/`goal` coordinates (`none` models the panics). -/
def Heightmap.fromLines (input : List String) : Option Heightmap :=
  match input with
  | [] => none
  | first :: rest =>
    let row0 := scanRow 0 0 first.toList (none, none)
    let width := row0.2.length
    let others := scanRows 1 rest row0.1
    match others.1.1, others.1.2 with
    | some s, some g => some ⟨s, g, ⟨row0.2 ++ others.2.flatten, width⟩⟩
    | _, _ => none

/-- The `State` struct of day 12: a cumulative cost and a grid coordinate. -/
structure State where
  cost : Nat
  position : Nat × Nat
deriving DecidableEq

/-- Lexicographic order on coordinates, the `Ord` of Rust tuples. -/
def posLtB (p q : Nat × Nat) : Bool :=
  p.1 < q.1 || (p.1 = q.1 && p.2 < q.2)

/-- The `Ord for State` impl: `a < b` iff `b.cost < a.cost`, ties broken by
`a.position < b.position` (so the max-heap pops the least cost first). -/
def stateLtB (a b : State) : Bool :=
  b.cost < a.cost || (b.cost = a.cost && posLtB a.position b.position)

/-- The `BinaryHeap::pop` of day 12's loops: remove a maximum element under
the `State` order (the heap is modelled as the list of its elements). -/
def popMax : List State → Option (State × List State)
  | [] => none
  | s :: rest =>
    match popMax rest with
    | none => some (s, [])
    | some (m, rest') =>
      if stateLtB s m then some (m, s :: rest') else some (s, m :: rest')

/-- The relaxation body of both Dijkstra loops: if `cost + 1` improves the
recorded distance of the neighbor, push the new `State` and update the
distance map. -/
def relaxStep (cost : Nat) (hd : List State × Field2D Nat) (nb : Nat × Nat) :
    List State × Field2D Nat :=
  if cost + 1 < hd.2.get0 nb then
    (⟨cost + 1, nb⟩ :: hd.1, hd.2.setAt nb (cost + 1))
  else hd

/-- The `usize::MAX` sentinel used to initialize the distance maps. -/
def UMAX : Nat := 2 ^ 64 - 1

/-- The loop of `Heightmap::path_search`, with fuel: pop the min-cost state;
return its cost if it is the goal; skip it if stale; otherwise relax every
climbable neighbor.  `none` means the fuel ran out; `some none` means the
queue emptied without reaching the goal. -/
def pathLoop (hm : Heightmap) :
    Nat → List State → Field2D Nat → Option (Option Nat)
  | 0, _, _ => none
  | fuel + 1, heap, dist =>
    match popMax heap with
    | none => some none
    | some (s, heap') =>
      if s.position = hm.goal then some (some s.cost)
      else if dist.get0 s.position < s.cost then pathLoop hm fuel heap' dist
      else
        let ns := (hm.map.neighborsList s.position.1 s.position.2).filter
          (fun nb => hm.map.get0 nb ≤ hm.map.get0 s.position + 1)
        let hd := ns.foldl (relaxStep s.cost) (heap', dist)
        pathLoop hm fuel hd.1 hd.2

/-- The loop of `Heightmap::find_all_distances_to_goal`, with fuel: same
relaxation with the reversed step predicate, no early exit; the distance map
is returned when the queue empties. -/
def allLoop (hm : Heightmap) :
    Nat → List State → Field2D Nat → Option (Field2D Nat)
  | 0, _, _ => none
  | fuel + 1, heap, dist =>
    match popMax heap with
    | none => some dist
    | some (s, heap') =>
      if dist.get0 s.position < s.cost then allLoop hm fuel heap' dist
      else
        let ns := (hm.map.neighborsList s.position.1 s.position.2).filter
          (fun nb => hm.map.get0 s.position ≤ hm.map.get0 nb + 1)
        let hd := ns.foldl (relaxStep s.cost) (heap', dist)
        allLoop hm fuel hd.1 hd.2

/-- Fuel that provably outlasts both Dijkstra loops (each iteration strictly
decreases `2 * (sum of the distance map) + (heap size)`). -/
def searchFuel (hm : Heightmap) : Nat :=
  2 * (hm.map.width * hm.map.height * UMAX) + 2

/-- The distance map initialization of `path_search`:
`new_with_value(width, height, usize::MAX)` then `distances[start] = 0`. -/
def Heightmap.initDist (hm : Heightmap) : Field2D Nat :=
  (Field2D.newWithValue hm.map.width hm.map.height UMAX).setAt hm.start 0

/-- The `Heightmap::path_search` method: seed the heap with `(0, start)` and
run the loop.  Fuel exhaustion is conflated into `none` by `Option.join`;
the sufficiency theorem shows it cannot happen. -/
def Heightmap.pathSearch (hm : Heightmap) : Option Nat :=
  (pathLoop hm (searchFuel hm) [⟨0, hm.start⟩] hm.initDist).join

/-- The distance map initialization of `find_all_distances_to_goal`. -/
def Heightmap.initDistGoal (hm : Heightmap) : Field2D Nat :=
  (Field2D.newWithValue hm.map.width hm.map.height UMAX).setAt hm.goal 0

/-- The `Heightmap::find_all_distances_to_goal` method: seed the heap with
`(0, goal)` and run the exhaustive loop. -/
def Heightmap.findAllDistancesToGoal (hm : Heightmap) : Option (Field2D Nat) :=
  allLoop hm (searchFuel hm) [⟨0, hm.goal⟩] hm.initDistGoal

/-- Rust's `Iterator::min_by_key` over `|(_, dist)| *dist`: the first element
of minimum key (later elements replace the accumulator only when strictly
smaller). -/
def minByCost : List ((Nat × Nat) × Nat) → Option ((Nat × Nat) × Nat)
  | [] => none
  | x :: xs => some (xs.foldl (fun a b => if b.2 < a.2 then b else a) x)

/-- The `part1` driver: parse the lines and run the single-target search
(`unwrap` panics modelled as `none`). -/
def part1 (input : List String) : Option Nat := do
  let hm ← Heightmap.fromLines input
  hm.pathSearch

/-- The `part2` driver: parse the lines, compute all distances from the goal,
filter the cells of elevation 0 and take the minimum distance. -/
def part2 (input : List String) : Option Nat := do
  let hm ← Heightmap.fromLines input
  let distances ← hm.findAllDistancesToGoal
  let best ← minByCost ((distances.iterWithPosition).filter
    (fun pv => hm.map.get0 pv.1 = 0))
  some best.2

/-- The five example rows of the day-12 unit test. -/
def exampleLines : List String :=
  ["Sabqponm", "abcryxxl", "accszExk", "acctuvwj", "abdefghi"]

/-- One edge of the climbing graph explored by `path_search`: `q` is an
orthogonal neighbor of `p` whose elevation exceeds `p`'s by at most 1. -/
def ClimbStep (hm : Heightmap) (p q : Nat × Nat) : Prop :=
  q ∈ hm.map.neighborsList p.1 p.2 ∧ hm.map.get0 q ≤ hm.map.get0 p + 1

/-- The cells reachable from `start` along climbing edges. -/
inductive Reachable (hm : Heightmap) : (Nat × Nat) → Prop where
  | start : Reachable hm hm.start
  | step {p q : Nat × Nat} : Reachable hm p → ClimbStep hm p q → Reachable hm q

/-- Termination measure of the Dijkstra loops: twice the sum of the distance
map plus the heap size.  Every loop iteration strictly decreases it. -/
def mu (heap : List State) (dist : Field2D Nat) : Nat :=
  2 * dist.values.sum + heap.length

/-- The 2-cell heightmap with elevations `[0, 25]`: the goal is one step to
the right of the start but 25 levels above it, hence unreachable. -/
def exUnreach : Heightmap := ⟨(0, 0), (1, 0), ⟨[0, 25], 2⟩⟩

end Day12

/-! ## Theorems -/

/-- C1: on the five-row example heightmap, parsing followed by the
single-target search (`part1`, i.e. `path_search` from `S` to `E`) returns
cost 31, and the all-distances search from `E` followed by the minimum over
elevation-0 cells (`part2`) returns 29. -/
theorem day12_example_answers :
    Day12.part1 Day12.exampleLines = some 31 ∧
    Day12.part2 Day12.exampleLines = some 29 := by
  constructor <;> decide

/-- C2 counterexample: `from_lines` maps the start marker `S` to elevation 1
and the goal marker `E` to elevation 26, not to the boundary elevations 0
and 25 the claim states. -/
theorem day12_marker_elevations_cex :
    (Day12.Heightmap.fromLines ["SE"]).map
      (fun hm => (hm.map.get0 hm.start, hm.map.get0 hm.goal)) = some (1, 26) ∧
    (Day12.Heightmap.fromLines ["SE"]).map
      (fun hm => (hm.map.get0 hm.start, hm.map.get0 hm.goal)) ≠ some (0, 25) := by
  constructor <;> decide

/-- C10: `height()` (and with it `len()`, `neighbors()` and
`neighbors_diag()`) divides by zero exactly when `width = 0`, a state
reachable through `Field2D::default()` and through `parse` when the first
row yields no cells; the operations are total only under `width > 0`. -/
theorem zero_width_partiality_spec :
    (∀ (α : Type) (f : Field2D α), (f.heightChecked).isSome ↔ 0 < f.width) ∧
    (Field2D.default Nat).width = 0 ∧
    (Field2D.default Nat).heightChecked = none ∧
    (∃ f : Field2D Nat,
      Field2D.parse [([] : List Nat)] (fun r => r) = some f ∧
      f.width = 0 ∧ f.heightChecked = none) ∧
    (∀ (α : Type) (f : Field2D α) (x y : Nat), f.width = 0 →
      f.heightChecked = none ∧ f.lenChecked = none ∧
      f.neighborsChecked x y = none ∧ f.neighborsDiagChecked x y = none) := by
  refine ⟨?_, by decide, by decide, ⟨⟨[], 0⟩, by decide, rfl, rfl⟩, ?_⟩
  · intro α f
    by_cases hw : f.width = 0
    · simp [Field2D.heightChecked, hw]
    · simp [Field2D.heightChecked, hw]
      omega
  · intro α f x y hw
    simp [Field2D.heightChecked, Field2D.lenChecked, Field2D.neighborsChecked,
      Field2D.neighborsDiagChecked, hw]

/-- C10 witness: the default grid has width 0 and all derived operations
fail on it. -/
theorem zero_width_partiality_spec_witness :
    (Field2D.default Nat).heightChecked = none ∧
    (Field2D.default Nat).lenChecked = none ∧
    (Field2D.default Nat).neighborsChecked 0 0 = none ∧
    (Field2D.default Nat).neighborsDiagChecked 0 0 = none :=
  zero_width_partiality_spec.2.2.2.2 Nat (Field2D.default Nat) 0 0 rfl

/-- C6: indexed access and indexed assignment fail (assertion panic) exactly
outside `[0, width) × [0, height)`; inside, access returns the value at
linear index `y * width + x` and assignment rewrites that cell, both
always succeeding. -/
theorem index_bounds_spec :
    ∀ (α : Type) (f : Field2D α) (x y : Nat) (v : α),
    (¬(x < f.width ∧ y < f.height) →
      f.indexChecked x y = none ∧ f.setChecked x y v = none) ∧
    (x < f.width → y < f.height →
      f.indexChecked x y = f.values[y * f.width + x]? ∧
      (f.indexChecked x y).isSome = true ∧
      f.setChecked x y v =
        some { f with values := f.values.set (y * f.width + x) v }) := by
  intro α f x y v
  constructor
  · intro hnot
    by_cases hx : x < f.width
    · have hy : ¬ y < f.values.length / f.width := fun hy => hnot ⟨hx, hy⟩
      have hw : ¬ f.width = 0 := by omega
      constructor <;>
        simp [Field2D.indexChecked, Field2D.setChecked, Field2D.heightChecked,
          hx, hw, hy]
    · constructor <;> simp [Field2D.indexChecked, Field2D.setChecked, hx]
  · intro hx hy
    have hw : 0 < f.width := Nat.pos_of_ne_zero (by omega)
    have hy' : y < f.values.length / f.width := hy
    have hmul : (y + 1) * f.width ≤ f.values.length :=
      (Nat.le_div_iff_mul_le hw).mp (Nat.succ_le_of_lt hy')
    have hidx : x + y * f.width < f.values.length := by
      have : y * f.width + f.width = (y + 1) * f.width := by ring
      omega
    have hw0 : ¬ f.width = 0 := by omega
    refine ⟨?_, ?_, ?_⟩
    · simp [Field2D.indexChecked, Field2D.heightChecked, hx, hw0, hy',
        Nat.add_comm x (y * f.width)]
    · simp [Field2D.indexChecked, Field2D.heightChecked, hx, hw0, hy',
        List.getElem?_eq_getElem hidx]
    · simp [Field2D.setChecked, Field2D.heightChecked, hx, hw0, hy', hidx,
        Nat.add_comm x (y * f.width)]
      omega

/-- C6 witness: on a concrete 3-wide, 2-high grid, in-bounds access at
`(1, 1)` reads linear cell 4 and out-of-bounds access at `(3, 0)` fails. -/
theorem index_bounds_spec_witness :
    ((Field2D.mk [10, 11, 12, 13, 14, 15] 3).indexChecked 1 1 = some 14) ∧
    ((Field2D.mk [10, 11, 12, 13, 14, 15] 3).indexChecked 3 0 = none) := by
  constructor
  · have h := (index_bounds_spec Nat (Field2D.mk [10, 11, 12, 13, 14, 15] 3)
      1 1 0).2 (by decide) (by decide)
    rw [h.1]; decide
  · have h := (index_bounds_spec Nat (Field2D.mk [10, 11, 12, 13, 14, 15] 3)
      3 0 0).1 (by decide)
    exact h.1

lemma cur_right (w h x y : Nat) (d : Bool) (hx : x < w) :
    NeighborIter.cur ⟨(w, h), (x, y), d, .Right⟩ =
      if x + 1 < w then some (x + 1, y) else none := by
  simp only [NeighborIter.cur, NeighborIter.dxOf, NeighborIter.dyOf]
  norm_num
  by_cases h1 : x + 1 < w
  · have hne : ¬ (x = w - 1) := by omega
    simp [hne, h1, Prod.ext_iff]
  · rw [if_neg h1]
    have he : x = w - 1 := by omega
    simp [he]

lemma cur_down (w h x y : Nat) (d : Bool) (hy : y < h) :
    NeighborIter.cur ⟨(w, h), (x, y), d, .Down⟩ =
      if y + 1 < h then some (x, y + 1) else none := by
  simp only [NeighborIter.cur, NeighborIter.dxOf, NeighborIter.dyOf]
  norm_num
  by_cases h2 : y + 1 < h
  · have hne : ¬ (y = h - 1) := by omega
    simp [hne, h2, Prod.ext_iff]
  · rw [if_neg h2]
    have he : y = h - 1 := by omega
    simp [he]

lemma cur_left (w h x y : Nat) (d : Bool) :
    NeighborIter.cur ⟨(w, h), (x, y), d, .Left⟩ =
      if 0 < x then some (x - 1, y) else none := by
  simp only [NeighborIter.cur, NeighborIter.dxOf, NeighborIter.dyOf]
  norm_num
  by_cases h3 : 0 < x
  · have hne : ¬ (x = 0) := by omega
    simp [hne, h3, Prod.ext_iff]
    omega
  · have he : x = 0 := by omega
    simp [he, h3]

lemma cur_up (w h x y : Nat) (d : Bool) :
    NeighborIter.cur ⟨(w, h), (x, y), d, .Up⟩ =
      if 0 < y then some (x, y - 1) else none := by
  simp only [NeighborIter.cur, NeighborIter.dxOf, NeighborIter.dyOf]
  norm_num
  by_cases h4 : 0 < y
  · have hne : ¬ (y = 0) := by omega
    simp [hne, h4, Prod.ext_iff]
    omega
  · have he : y = 0 := by omega
    simp [he, h4]

lemma cur_upleft (w h x y : Nat) (d : Bool) :
    NeighborIter.cur ⟨(w, h), (x, y), d, .UpLeft⟩ =
      if 0 < x ∧ 0 < y then some (x - 1, y - 1) else none := by
  simp only [NeighborIter.cur, NeighborIter.dxOf, NeighborIter.dyOf]
  norm_num
  by_cases h3 : 0 < x <;> by_cases h4 : 0 < y
  · have hx0 : ¬ (x = 0) := by omega
    have hy0 : ¬ (y = 0) := by omega
    simp [hx0, hy0, h3, h4, Prod.ext_iff]
    omega
  · rw [if_neg (by omega : ¬(0 < x ∧ 0 < y))]
    have he : y = 0 := by omega
    have hx0 : ¬ (x = 0) := by omega
    simp [he, hx0]
  · rw [if_neg (by omega : ¬(0 < x ∧ 0 < y))]
    have he : x = 0 := by omega
    simp [he]
  · rw [if_neg (by omega : ¬(0 < x ∧ 0 < y))]
    have he : x = 0 := by omega
    simp [he]

lemma cur_upright (w h x y : Nat) (d : Bool) (hx : x < w) :
    NeighborIter.cur ⟨(w, h), (x, y), d, .UpRight⟩ =
      if x + 1 < w ∧ 0 < y then some (x + 1, y - 1) else none := by
  simp only [NeighborIter.cur, NeighborIter.dxOf, NeighborIter.dyOf]
  norm_num
  by_cases h1 : x + 1 < w <;> by_cases h4 : 0 < y
  · have hx1 : ¬ (x = w - 1) := by omega
    have hy0 : ¬ (y = 0) := by omega
    simp [hx1, hy0, h1, h4, Prod.ext_iff]
    omega
  · rw [if_neg (by omega : ¬(x + 1 < w ∧ 0 < y))]
    have he : y = 0 := by omega
    have hx1 : ¬ (x = w - 1) := by omega
    simp [he, hx1]
  · rw [if_neg (by omega : ¬(x + 1 < w ∧ 0 < y))]
    have he : x = w - 1 := by omega
    simp [he]
  · rw [if_neg (by omega : ¬(x + 1 < w ∧ 0 < y))]
    have he : x = w - 1 := by omega
    simp [he]

lemma cur_downright (w h x y : Nat) (d : Bool) (hx : x < w) (hy : y < h) :
    NeighborIter.cur ⟨(w, h), (x, y), d, .DownRight⟩ =
      if x + 1 < w ∧ y + 1 < h then some (x + 1, y + 1) else none := by
  simp only [NeighborIter.cur, NeighborIter.dxOf, NeighborIter.dyOf]
  norm_num
  by_cases h1 : x + 1 < w <;> by_cases h2 : y + 1 < h
  · have hx1 : ¬ (x = w - 1) := by omega
    have hy1 : ¬ (y = h - 1) := by omega
    simp [hx1, hy1, h1, h2, Prod.ext_iff]
  · rw [if_neg (by omega : ¬(x + 1 < w ∧ y + 1 < h))]
    have he : y = h - 1 := by omega
    have hx1 : ¬ (x = w - 1) := by omega
    simp [he, hx1]
  · rw [if_neg (by omega : ¬(x + 1 < w ∧ y + 1 < h))]
    have he : x = w - 1 := by omega
    simp [he]
  · rw [if_neg (by omega : ¬(x + 1 < w ∧ y + 1 < h))]
    have he : x = w - 1 := by omega
    simp [he]

lemma cur_downleft (w h x y : Nat) (d : Bool) (hy : y < h) :
    NeighborIter.cur ⟨(w, h), (x, y), d, .DownLeft⟩ =
      if 0 < x ∧ y + 1 < h then some (x - 1, y + 1) else none := by
  simp only [NeighborIter.cur, NeighborIter.dxOf, NeighborIter.dyOf]
  norm_num
  by_cases h3 : 0 < x <;> by_cases h2 : y + 1 < h
  · have hx0 : ¬ (x = 0) := by omega
    have hy1 : ¬ (y = h - 1) := by omega
    simp [hx0, hy1, h3, h2, Prod.ext_iff]
    omega
  · rw [if_neg (by omega : ¬(0 < x ∧ y + 1 < h))]
    have he : y = h - 1 := by omega
    have hx0 : ¬ (x = 0) := by omega
    simp [he, hx0]
  · rw [if_neg (by omega : ¬(0 < x ∧ y + 1 < h))]
    have he : x = 0 := by omega
    simp [he]
  · rw [if_neg (by omega : ¬(0 < x ∧ y + 1 < h))]
    have he : x = 0 := by omega
    simp [he]

lemma toList_orth (w h x y : Nat) (hx : x < w) (hy : y < h) :
    NeighborIter.toList ⟨(w, h), (x, y), false, .Right⟩ 9 =
      (if x + 1 < w then [(x + 1, y)] else []) ++
      (if y + 1 < h then [(x, y + 1)] else []) ++
      (if 0 < x then [(x - 1, y)] else []) ++
      (if 0 < y then [(x, y - 1)] else []) := by
  by_cases h1 : x + 1 < w <;> by_cases h2 : y + 1 < h <;>
    by_cases h3 : 0 < x <;> by_cases h4 : 0 < y <;>
    simp [NeighborIter.toList, NeighborIter.advance,
      cur_right w h x y false hx, cur_down w h x y false hy,
      cur_left w h x y false, cur_up w h x y false, h1, h2, h3, h4]

lemma toList_diag (w h x y : Nat) (hx : x < w) (hy : y < h) :
    NeighborIter.toList ⟨(w, h), (x, y), true, .Right⟩ 9 =
      (if x + 1 < w then [(x + 1, y)] else []) ++
      (if y + 1 < h then [(x, y + 1)] else []) ++
      (if 0 < x then [(x - 1, y)] else []) ++
      (if 0 < y then [(x, y - 1)] else []) ++
      (if 0 < x ∧ 0 < y then [(x - 1, y - 1)] else []) ++
      (if x + 1 < w ∧ 0 < y then [(x + 1, y - 1)] else []) ++
      (if x + 1 < w ∧ y + 1 < h then [(x + 1, y + 1)] else []) ++
      (if 0 < x ∧ y + 1 < h then [(x - 1, y + 1)] else []) := by
  by_cases h1 : x + 1 < w <;> by_cases h2 : y + 1 < h <;>
    by_cases h3 : 0 < x <;> by_cases h4 : 0 < y <;>
    simp [NeighborIter.toList, NeighborIter.advance,
      cur_right w h x y true hx, cur_down w h x y true hy,
      cur_left w h x y true, cur_up w h x y true,
      cur_upleft w h x y true, cur_upright w h x y true hx,
      cur_downright w h x y true hx hy, cur_downleft w h x y true hy,
      h1, h2, h3, h4]

lemma neighborsList_closed {α : Type} (f : Field2D α) (x y : Nat)
    (hx : x < f.width) (hy : y < f.height) :
    f.neighborsList x y =
      (if x + 1 < f.width then [(x + 1, y)] else []) ++
      (if y + 1 < f.height then [(x, y + 1)] else []) ++
      (if 0 < x then [(x - 1, y)] else []) ++
      (if 0 < y then [(x, y - 1)] else []) :=
  toList_orth f.width f.height x y hx hy

lemma neighborsDiagList_closed {α : Type} (f : Field2D α) (x y : Nat)
    (hx : x < f.width) (hy : y < f.height) :
    f.neighborsDiagList x y =
      (if x + 1 < f.width then [(x + 1, y)] else []) ++
      (if y + 1 < f.height then [(x, y + 1)] else []) ++
      (if 0 < x then [(x - 1, y)] else []) ++
      (if 0 < y then [(x, y - 1)] else []) ++
      (if 0 < x ∧ 0 < y then [(x - 1, y - 1)] else []) ++
      (if x + 1 < f.width ∧ 0 < y then [(x + 1, y - 1)] else []) ++
      (if x + 1 < f.width ∧ y + 1 < f.height then [(x + 1, y + 1)] else []) ++
      (if 0 < x ∧ y + 1 < f.height then [(x - 1, y + 1)] else []) :=
  toList_diag f.width f.height x y hx hy

lemma mem_ite_singleton {c : Prop} [Decidable c] {a p : Nat × Nat}
    (hp : p ∈ if c then [a] else []) : c ∧ p = a := by
  by_cases h : c
  · rw [if_pos h] at hp
    exact ⟨h, List.mem_singleton.mp hp⟩
  · rw [if_neg h] at hp
    simp at hp

lemma neighborsList_bounds {α : Type} (f : Field2D α) (x y : Nat)
    (hx : x < f.width) (hy : y < f.height) :
    ∀ p ∈ f.neighborsList x y, p.1 < f.width ∧ p.2 < f.height := by
  intro p hp
  rw [neighborsList_closed f x y hx hy] at hp
  simp only [List.mem_append] at hp
  rcases hp with ((hp | hp) | hp) | hp <;>
    obtain ⟨hc, rfl⟩ := mem_ite_singleton hp <;>
    exact ⟨by simp; omega, by simp; omega⟩

lemma neighborsDiagList_bounds {α : Type} (f : Field2D α) (x y : Nat)
    (hx : x < f.width) (hy : y < f.height) :
    ∀ p ∈ f.neighborsDiagList x y, p.1 < f.width ∧ p.2 < f.height := by
  intro p hp
  rw [neighborsDiagList_closed f x y hx hy] at hp
  simp only [List.mem_append] at hp
  rcases hp with ((((((hp | hp) | hp) | hp) | hp) | hp) | hp) | hp <;>
    obtain ⟨hc, rfl⟩ := mem_ite_singleton hp <;>
    exact ⟨by simp; omega, by simp; omega⟩

/-- C4: for every in-bounds origin, the orthogonal neighbor iterator yields
exactly the in-bounds members of right, down, left, up (in that order), hence
at most 4 coordinates, all strictly inside the grid; at edges it yields fewer
than 4, and at a corner of a grid with both dimensions above 1 it yields
exactly 2. -/
theorem neighbors_orth_spec :
    ∀ (α : Type) (f : Field2D α) (x y : Nat), x < f.width → y < f.height →
    (f.neighborsList x y =
      (if x + 1 < f.width then [(x + 1, y)] else []) ++
      (if y + 1 < f.height then [(x, y + 1)] else []) ++
      (if 0 < x then [(x - 1, y)] else []) ++
      (if 0 < y then [(x, y - 1)] else [])) ∧
    (f.neighborsList x y).length ≤ 4 ∧
    (∀ p ∈ f.neighborsList x y, p.1 < f.width ∧ p.2 < f.height) ∧
    ((x = 0 ∨ x + 1 = f.width ∨ y = 0 ∨ y + 1 = f.height) →
      (f.neighborsList x y).length < 4) ∧
    (1 < f.width → 1 < f.height → (x = 0 ∨ x + 1 = f.width) →
      (y = 0 ∨ y + 1 = f.height) → (f.neighborsList x y).length = 2) := by
  intro α f x y hx hy
  have hcf := neighborsList_closed f x y hx hy
  refine ⟨hcf, ?_, neighborsList_bounds f x y hx hy, ?_, ?_⟩
  · rw [hcf]
    split_ifs <;> simp
  · intro hedge
    rw [hcf]
    split_ifs <;>
      simp only [List.length_append, List.length_singleton, List.length_nil] <;>
      omega
  · intro hw hh hcx hcy
    rw [hcf]
    split_ifs <;>
      simp only [List.length_append, List.length_singleton, List.length_nil] <;>
      omega

/-- C4 witness: the top-left corner of a 3-by-3 grid has exactly the two
neighbors right and down, in that order. -/
theorem neighbors_orth_spec_witness :
    (Field2D.mk (List.replicate 9 (0 : Nat)) 3).neighborsList 0 0 =
      [(1, 0), (0, 1)] ∧
    ((Field2D.mk (List.replicate 9 (0 : Nat)) 3).neighborsList 0 0).length = 2 := by
  have h := neighbors_orth_spec Nat (Field2D.mk (List.replicate 9 (0 : Nat)) 3)
    0 0 (by decide) (by decide)
  constructor
  · rw [h.1]
    decide
  · exact h.2.2.2.2 (by decide) (by decide) (Or.inl rfl) (Or.inl rfl)

/-- C5: for every in-bounds origin, the 8-way neighbor list extends the
orthogonal one (the orthogonal list is an initial segment, hence a subset),
has at most 8 members, and every member — in particular every diagonal one —
is strictly inside the grid. -/
theorem neighbors_diag_superset_spec :
    ∀ (α : Type) (f : Field2D α) (x y : Nat), x < f.width → y < f.height →
    (∃ rest, f.neighborsDiagList x y = f.neighborsList x y ++ rest) ∧
    (∀ p ∈ f.neighborsList x y, p ∈ f.neighborsDiagList x y) ∧
    (f.neighborsDiagList x y).length ≤ 8 ∧
    (∀ p ∈ f.neighborsDiagList x y, p.1 < f.width ∧ p.2 < f.height) := by
  intro α f x y hx hy
  have hext : ∃ rest, f.neighborsDiagList x y = f.neighborsList x y ++ rest := by
    refine ⟨(if 0 < x ∧ 0 < y then [(x - 1, y - 1)] else []) ++
      ((if x + 1 < f.width ∧ 0 < y then [(x + 1, y - 1)] else []) ++
       ((if x + 1 < f.width ∧ y + 1 < f.height then [(x + 1, y + 1)] else []) ++
        (if 0 < x ∧ y + 1 < f.height then [(x - 1, y + 1)] else []))), ?_⟩
    rw [neighborsDiagList_closed f x y hx hy, neighborsList_closed f x y hx hy]
    simp [List.append_assoc]
  refine ⟨hext, ?_, ?_, neighborsDiagList_bounds f x y hx hy⟩
  · intro p hp
    obtain ⟨rest, hrest⟩ := hext
    rw [hrest]
    exact List.mem_append_left rest hp
  · rw [neighborsDiagList_closed f x y hx hy]
    split_ifs <;> simp

/-- C5 witness: at the center of a 3-by-3 grid, the orthogonal neighbor
`(2, 1)` also appears in the 8-way list, which has at most 8 members. -/
theorem neighbors_diag_superset_spec_witness :
    (2, 1) ∈ (Field2D.mk (List.replicate 9 (0 : Nat)) 3).neighborsDiagList 1 1 ∧
    ((Field2D.mk (List.replicate 9 (0 : Nat)) 3).neighborsDiagList 1 1).length ≤ 8 := by
  have h := neighbors_diag_superset_spec Nat
    (Field2D.mk (List.replicate 9 (0 : Nat)) 3) 1 1 (by decide) (by decide)
  exact ⟨h.2.1 (2, 1) (by decide), h.2.2.1⟩

/-- C9: the neighbor iterator never validates its origin: started at the
out-of-bounds origin `(width, y)` on a grid of width at least 2, its first
yielded coordinate is `(width + 1, y)`, which lies outside the grid. -/
theorem neighbors_origin_unchecked :
    ∀ (α : Type) (f : Field2D α) (y : Nat), 2 ≤ f.width → y < f.height →
    (f.neighborsList f.width y).head? = some (f.width + 1, y) ∧
    ¬ (f.width + 1 < f.width) := by
  intro α f y hw hy
  constructor
  · have hne : ¬ (f.width = f.width - 1) := by omega
    show (NeighborIter.toList
      ⟨(f.width, f.height), (f.width, y), false, NeighborIterState.Right⟩ 9).head? = _
    rw [show (9 : Nat) = 8 + 1 from rfl]
    simp only [NeighborIter.toList, NeighborIter.cur, NeighborIter.dxOf,
      NeighborIter.dyOf]
    norm_num [hne]
    constructor
  · omega

/-- C9 witness: on the 2-wide, 1-high grid, the iterator started at the
out-of-bounds origin `(2, 0)` first yields `(3, 0)`. -/
theorem neighbors_origin_unchecked_witness :
    ((Field2D.mk [0, 0] 2 : Field2D Nat).neighborsList 2 0).head? = some (3, 0) :=
  (neighbors_origin_unchecked Nat (Field2D.mk [0, 0] 2) 0 (by decide) (by decide)).1

lemma map_length_flatten {α : Type} (w : Nat) :
    ∀ L : List (List α), (∀ r ∈ L, r.length = w) → L.flatten.length = L.length * w := by
  intro L
  induction L with
  | nil => simp
  | cons a t ih =>
    intro h
    have ha := h a (by simp)
    have ht := ih (fun r hr => h r (by simp [hr]))
    simp [List.flatten_cons, ha, ht]
    ring

lemma flatten_getElem {α : Type} (w : Nat) :
    ∀ (L : List (List α)) (y x : Nat), (∀ r ∈ L, r.length = w) → x < w →
      L.flatten[y * w + x]? = (L[y]?).bind (fun row => row[x]?) := by
  intro L
  induction L with
  | nil => intro y x _ _; simp
  | cons a t ih =>
    intro y x h hx
    have ha := h a (by simp)
    cases y with
    | zero =>
      simp only [Nat.zero_mul, Nat.zero_add]
      rw [List.flatten_cons, List.getElem?_append, if_pos (by omega : x < a.length)]
      simp
    | succ y' =>
      have hmul : (y' + 1) * w = y' * w + w := Nat.succ_mul y' w
      rw [List.flatten_cons, List.getElem?_append,
        if_neg (by omega : ¬ ((y' + 1) * w + x < a.length))]
      have hsub : (y' + 1) * w + x - a.length = y' * w + x := by omega
      rw [hsub, ih y' x (fun r hr => h r (by simp [hr])) hx]
      simp

/-- C3 (amended with `w > 0`): a grid built from `n` equal-length rows of
positive width `w` has height `n` and width `w`, indexing at in-bounds
`(x, y)` returns the parsed value at row `y`, column `x`, and
`iter_with_position` traverses the cells in row-major order with positions
`(i % w, i / w)`, reproducing the parsed rows exactly. -/
theorem parse_roundtrip_spec :
    ∀ (α ρ : Type) (rows : List ρ) (p : ρ → List α) (w : Nat),
    0 < w → (∀ r ∈ rows, (p r).length = w) → rows ≠ [] →
    ∃ f, Field2D.parse rows p = some f ∧ f.width = w ∧
      f.height = rows.length ∧
      (∀ y x r, rows[y]? = some r → x < w → f.indexChecked x y = (p r)[x]?) ∧
      f.iterWithPosition.map Prod.snd = (rows.map p).flatten ∧
      f.iterWithPosition.map Prod.fst =
        (List.range (rows.length * w)).map (fun i => (i % w, i / w)) := by
  intro α ρ rows p w hw hlen hne
  match rows with
  | [] => exact absurd rfl hne
  | first :: rest =>
    have hwfirst : (p first).length = w := hlen first (by simp)
    have hmap : ∀ r ∈ (first :: rest).map p, r.length = w := by
      intro r hr
      obtain ⟨r', hr', rfl⟩ := List.mem_map.mp hr
      exact hlen r' hr'
    refine ⟨⟨p first ++ (rest.map p).flatten, (p first).length⟩, rfl, hwfirst, ?_, ?_, ?_, ?_⟩
    case _ =>
      -- height = number of rows
      show (p first ++ (rest.map p).flatten).length / (p first).length = _
      have : (p first ++ (rest.map p).flatten) = ((first :: rest).map p).flatten := by
        simp [List.flatten_cons]
      rw [this, map_length_flatten w _ hmap, hwfirst]
      simp [Nat.mul_div_cancel _ hw]
    case _ =>
      intro y x r hy hx
      have hyn : y < (first :: rest).length := by
        by_contra hge
        rw [List.getElem?_eq_none (by omega)] at hy
        exact Option.noConfusion hy
      have hflat : (p first ++ (rest.map p).flatten) = ((first :: rest).map p).flatten := by
        simp [List.flatten_cons]
      have hvlen : (p first ++ (rest.map p).flatten).length = (first :: rest).length * w := by
        rw [hflat]
        rw [map_length_flatten w _ hmap]
        simp
      show Field2D.indexChecked _ x y = _
      rw [Field2D.indexChecked]
      simp only [hwfirst]
      rw [if_pos hx]
      have hh : Field2D.heightChecked ⟨p first ++ (rest.map p).flatten, w⟩ =
          some ((first :: rest).length) := by
        show (if w = 0 then none
          else some ((p first ++ (rest.map p).flatten).length / w)) = _
        rw [if_neg (by omega : ¬ w = 0), hvlen, Nat.mul_div_cancel _ hw]
      rw [hh]
      show (if y < (first :: rest).length then
        (p first ++ (rest.map p).flatten)[x + y * w]? else none) = _
      rw [if_pos hyn]
      rw [Nat.add_comm x (y * w), hflat, flatten_getElem w _ y x hmap hx]
      rw [List.getElem?_map, hy]
      rfl
    case _ =>
      show List.map Prod.snd (List.map _ (p first ++ (rest.map p).flatten).enum) = _
      rw [List.map_map]
      have hcomp : Prod.snd ∘
          (fun iv : Nat × α =>
            ((iv.1 % (p first).length, iv.1 / (p first).length), iv.2)) = Prod.snd := rfl
      rw [hcomp, List.enum_map_snd]
      simp [List.flatten_cons]
    case _ =>
      have hvlen : (p first ++ (rest.map p).flatten).length = (first :: rest).length * w := by
        have hflat : (p first ++ (rest.map p).flatten) = ((first :: rest).map p).flatten := by
          simp [List.flatten_cons]
        rw [hflat, map_length_flatten w _ hmap]
        simp
      show List.map Prod.fst (List.map _ (p first ++ (rest.map p).flatten).enum) = _
      rw [List.map_map]
      have hcomp : Prod.fst ∘
          (fun iv : Nat × α =>
            ((iv.1 % (p first).length, iv.1 / (p first).length), iv.2)) =
          (fun i => (i % w, i / w)) ∘ Prod.fst := by
        funext iv
        simp [hwfirst]
      rw [hcomp, ← List.map_map, List.enum_map_fst, hvlen]

/-- C3 counterexample: for the single row of width 0 (`n = 1`, `w = 0`),
`parse` succeeds but the resulting grid's `height()` divides by zero
(panics) instead of returning `n = 1`; even the truncated quotient is 0. -/
theorem parse_zero_width_cex :
    (Field2D.parse [([] : List Nat)] (fun r => r)).map Field2D.heightChecked = some none ∧
    (Field2D.parse [([] : List Nat)] (fun r => r)).map Field2D.height = some 0 ∧
    (Field2D.parse [([] : List Nat)] (fun r => r)).map Field2D.height ≠ some 1 := by
  refine ⟨rfl, rfl, by decide⟩

/-- C3 witness: parsing two rows of width 2 yields a grid of height 2. -/
theorem parse_roundtrip_spec_witness :
    (Field2D.parse [[10, 11], [12, 13]] (fun r => r)).map Field2D.height = some 2 := by
  obtain ⟨f, h1, hwid, hht, -, -, -⟩ := parse_roundtrip_spec Nat (List Nat)
    [[10, 11], [12, 13]] (fun r => r) 2 (by decide) (by decide) (by decide)
  rw [h1]
  simp [hht]

lemma newEmpty_values {α : Type} [Inhabited α] (w : Nat) :
    ∀ h : Nat, (Field2D.newEmpty (α := α) w h).values.length = h * w ∧
      (Field2D.newEmpty (α := α) w h).width = w := by
  intro h
  induction h with
  | zero => simp [Field2D.newEmpty]
  | succ n ih =>
    simp [Field2D.newEmpty, Field2D.addRow, ih.1, ih.2]
    ring

/-- C8: every `Field2D` operation establishes or preserves the invariant
`values.len % width == 0`: `new_empty` and `new_with_value` establish it,
`add_row` appends exactly `width` default values and preserves it, indexed
assignment changes neither length nor width, and `parse` establishes it
whenever all rows parse to the same number of cells. -/
theorem field2d_invariant_spec :
    (∀ (α : Type) [Inhabited α] (w h : Nat),
      (Field2D.newEmpty (α := α) w h).values.length %
        (Field2D.newEmpty (α := α) w h).width = 0) ∧
    (∀ (α : Type) (w h : Nat) (v : α),
      (Field2D.newWithValue w h v).values.length %
        (Field2D.newWithValue w h v).width = 0) ∧
    (∀ (α : Type) [Inhabited α] (f : Field2D α),
      f.addRow.values = f.values ++ List.replicate f.width (Inhabited.default : α) ∧
      f.addRow.width = f.width ∧
      (f.values.length % f.width = 0 →
        f.addRow.values.length % f.addRow.width = 0)) ∧
    (∀ (α : Type) (f : Field2D α) (x y : Nat) (v : α) (f' : Field2D α),
      f.setChecked x y v = some f' →
      f'.values.length = f.values.length ∧ f'.width = f.width ∧
      (f.values.length % f.width = 0 → f'.values.length % f'.width = 0)) ∧
    (∀ (α ρ : Type) (rows : List ρ) (p : ρ → List α) (f : Field2D α),
      (∀ r ∈ rows, ∀ r' ∈ rows, (p r).length = (p r').length) →
      Field2D.parse rows p = some f → f.values.length % f.width = 0) := by
  refine ⟨?_, ?_, ?_, ?_, ?_⟩
  · intro α _ w h
    rw [(newEmpty_values w h).1, (newEmpty_values w h).2]
    exact Nat.mul_mod_left h w
  · intro α w h v
    show (List.replicate (w * h) v).length % w = 0
    rw [List.length_replicate]
    exact Nat.mul_mod_right w h
  · intro α _ f
    refine ⟨rfl, rfl, ?_⟩
    intro hmod
    show (f.values ++ List.replicate f.width _).length % f.width = 0
    rw [List.length_append, List.length_replicate, Nat.add_mod_right]
    exact hmod
  · intro α f x y v f' h
    rw [Field2D.setChecked, Field2D.heightChecked] at h
    split_ifs at h with hx hw hidx
    · exact Option.noConfusion h
    · exact Option.noConfusion h
    · have h2 : (if y < f.values.length / f.width then
          some (Field2D.mk (f.values.set (x + y * f.width) v) f.width)
          else none) = some f' := h
      split_ifs at h2 with hy
      injection h2 with h'
      subst h'
      exact ⟨by simp, rfl, fun hmod => by simpa using hmod⟩
    · have h2 : (if y < f.values.length / f.width then (none : Option (Field2D α))
          else none) = some f' := h
      split_ifs at h2
  · intro α ρ rows p f hconst h
    match rows with
    | [] => exact Option.noConfusion h
    | first :: rest =>
      injection h with h'
      subst h'
      have hmap : ∀ r ∈ (first :: rest).map p, r.length = (p first).length := by
        intro r hr
        obtain ⟨r', hr', rfl⟩ := List.mem_map.mp hr
        exact hconst r' hr' first (by simp)
      show (p first ++ (rest.map p).flatten).length % (p first).length = 0
      have hflat : (p first ++ (rest.map p).flatten) = ((first :: rest).map p).flatten := by
        simp [List.flatten_cons]
      rw [hflat, map_length_flatten _ _ hmap]
      exact Nat.mul_mod_left _ _

/-- C8 witness: on concrete grids, assignment keeps the length, and parsing
two equal rows establishes the invariant. -/
theorem field2d_invariant_spec_witness :
    ((Field2D.mk [1, 2, 3, 4] 2).setChecked 0 1 9 = some (Field2D.mk [1, 2, 9, 4] 2)) ∧
    (Field2D.mk [1, 2, 9, 4] 2).values.length = (Field2D.mk [1, 2, 3, 4] 2).values.length ∧
    (Field2D.parse [[1, 2], [3, 4]] (fun r => r) = some (Field2D.mk [1, 2, 3, 4] 2)) ∧
    (Field2D.mk [1, 2, 3, 4] 2).values.length % (Field2D.mk [1, 2, 3, 4] 2).width = 0 := by
  have hset : (Field2D.mk [1, 2, 3, 4] 2).setChecked 0 1 9 =
      some (Field2D.mk [1, 2, 9, 4] 2) := by decide
  have hparse : Field2D.parse [[1, 2], [3, 4]] (fun r => r) =
      some (Field2D.mk [1, 2, 3, 4] 2) := by decide
  exact ⟨hset, (field2d_invariant_spec.2.2.2.1 Nat _ 0 1 9 _ hset).1, hparse,
    field2d_invariant_spec.2.2.2.2 Nat (List Nat) [[1, 2], [3, 4]] (fun r => r) _
      (by decide) hparse⟩

lemma scanRow_vals (li : Nat) :
    ∀ (cs : List Char) (i : Nat) (st : Option (Nat × Nat) × Option (Nat × Nat)),
    (Day12.scanRow li i cs st).2 = cs.map Day12.charElev := by
  intro cs
  induction cs with
  | nil => intro i st; rfl
  | cons c cs ih =>
    intro i st
    obtain ⟨s, g⟩ := st
    by_cases hS : c = 'S'
    · simp [Day12.scanRow, Day12.charElev, hS, ih]
    · by_cases hE : c = 'E'
      · simp [Day12.scanRow, Day12.charElev, hS, hE, ih]
      · simp [Day12.scanRow, Day12.charElev, hS, hE, ih]

lemma scanRow_start (li : Nat) :
    ∀ (cs : List Char) (i : Nat) (s g : Option (Nat × Nat)),
    (Day12.scanRow li i cs (s, g)).1.1 = s ∨
    ∃ k, cs[k]? = some 'S' ∧
      (Day12.scanRow li i cs (s, g)).1.1 = some (i + k, li) := by
  intro cs
  induction cs with
  | nil => intro i s g; exact Or.inl rfl
  | cons c cs ih =>
    intro i s g
    by_cases hS : c = 'S'
    · have hrw : (Day12.scanRow li i (c :: cs) (s, g)).1.1 =
          (Day12.scanRow li (i + 1) cs (some (i, li), g)).1.1 := by
        simp [Day12.scanRow, hS]
      rcases ih (i + 1) (some (i, li)) g with h | ⟨k, hk, h⟩
      · exact Or.inr ⟨0, by simp [hS], by rw [hrw, h]; simp⟩
      · refine Or.inr ⟨k + 1, by simp [hk], ?_⟩
        rw [hrw, h]
        have : i + 1 + k = i + (k + 1) := by omega
        rw [this]
    · by_cases hE : c = 'E'
      · have hrw : (Day12.scanRow li i (c :: cs) (s, g)).1.1 =
            (Day12.scanRow li (i + 1) cs (s, some (i, li))).1.1 := by
          simp [Day12.scanRow, hS, hE]
        rcases ih (i + 1) s (some (i, li)) with h | ⟨k, hk, h⟩
        · exact Or.inl (by rw [hrw, h])
        · refine Or.inr ⟨k + 1, by simp [hk], ?_⟩
          rw [hrw, h]
          have : i + 1 + k = i + (k + 1) := by omega
          rw [this]
      · have hrw : (Day12.scanRow li i (c :: cs) (s, g)).1.1 =
            (Day12.scanRow li (i + 1) cs (s, g)).1.1 := by
          simp [Day12.scanRow, hS, hE]
        rcases ih (i + 1) s g with h | ⟨k, hk, h⟩
        · exact Or.inl (by rw [hrw, h])
        · refine Or.inr ⟨k + 1, by simp [hk], ?_⟩
          rw [hrw, h]
          have : i + 1 + k = i + (k + 1) := by omega
          rw [this]

lemma scanRow_goal (li : Nat) :
    ∀ (cs : List Char) (i : Nat) (s g : Option (Nat × Nat)),
    (Day12.scanRow li i cs (s, g)).1.2 = g ∨
    ∃ k, cs[k]? = some 'E' ∧
      (Day12.scanRow li i cs (s, g)).1.2 = some (i + k, li) := by
  intro cs
  induction cs with
  | nil => intro i s g; exact Or.inl rfl
  | cons c cs ih =>
    intro i s g
    by_cases hS : c = 'S'
    · have hrw : (Day12.scanRow li i (c :: cs) (s, g)).1.2 =
          (Day12.scanRow li (i + 1) cs (some (i, li), g)).1.2 := by
        simp [Day12.scanRow, hS]
      rcases ih (i + 1) (some (i, li)) g with h | ⟨k, hk, h⟩
      · exact Or.inl (by rw [hrw, h])
      · refine Or.inr ⟨k + 1, by simp [hk], ?_⟩
        rw [hrw, h]
        have : i + 1 + k = i + (k + 1) := by omega
        rw [this]
    · by_cases hE : c = 'E'
      · have hrw : (Day12.scanRow li i (c :: cs) (s, g)).1.2 =
            (Day12.scanRow li (i + 1) cs (s, some (i, li))).1.2 := by
          simp [Day12.scanRow, hS, hE]
        rcases ih (i + 1) s (some (i, li)) with h | ⟨k, hk, h⟩
        · exact Or.inr ⟨0, by simp [hE], by rw [hrw, h]; simp⟩
        · refine Or.inr ⟨k + 1, by simp [hk], ?_⟩
          rw [hrw, h]
          have : i + 1 + k = i + (k + 1) := by omega
          rw [this]
      · have hrw : (Day12.scanRow li i (c :: cs) (s, g)).1.2 =
            (Day12.scanRow li (i + 1) cs (s, g)).1.2 := by
          simp [Day12.scanRow, hS, hE]
        rcases ih (i + 1) s g with h | ⟨k, hk, h⟩
        · exact Or.inl (by rw [hrw, h])
        · refine Or.inr ⟨k + 1, by simp [hk], ?_⟩
          rw [hrw, h]
          have : i + 1 + k = i + (k + 1) := by omega
          rw [this]

lemma scanRows_vals :
    ∀ (ls : List String) (li : Nat) (st : Option (Nat × Nat) × Option (Nat × Nat)),
    (Day12.scanRows li ls st).2 = ls.map (fun l => l.toList.map Day12.charElev) := by
  intro ls
  induction ls with
  | nil => intro li st; rfl
  | cons l ls ih =>
    intro li st
    simp [Day12.scanRows, scanRow_vals, ih]

lemma scanRows_start :
    ∀ (ls : List String) (li : Nat) (st : Option (Nat × Nat) × Option (Nat × Nat)),
    (Day12.scanRows li ls st).1.1 = st.1 ∨
    ∃ j row k, ls[j]? = some row ∧ row.toList[k]? = some 'S' ∧
      (Day12.scanRows li ls st).1.1 = some (k, li + j) := by
  intro ls
  induction ls with
  | nil => intro li st; exact Or.inl rfl
  | cons l ls ih =>
    intro li st
    obtain ⟨s, g⟩ := st
    have hrw : (Day12.scanRows li (l :: ls) (s, g)).1.1 =
        (Day12.scanRows (li + 1) ls (Day12.scanRow li 0 l.toList (s, g)).1).1.1 := rfl
    rcases ih (li + 1) (Day12.scanRow li 0 l.toList (s, g)).1 with h | ⟨j, row, k, hj, hk, h⟩
    · rcases scanRow_start li l.toList 0 s g with h2 | ⟨k, hk, h2⟩
      · exact Or.inl (by rw [hrw, h, h2])
      · refine Or.inr ⟨0, l, k, by simp, hk, ?_⟩
        rw [hrw, h, h2]
        simp
    · refine Or.inr ⟨j + 1, row, k, by simp [hj], hk, ?_⟩
      rw [hrw, h]
      have : li + 1 + j = li + (j + 1) := by omega
      rw [this]

lemma scanRows_goal :
    ∀ (ls : List String) (li : Nat) (st : Option (Nat × Nat) × Option (Nat × Nat)),
    (Day12.scanRows li ls st).1.2 = st.2 ∨
    ∃ j row k, ls[j]? = some row ∧ row.toList[k]? = some 'E' ∧
      (Day12.scanRows li ls st).1.2 = some (k, li + j) := by
  intro ls
  induction ls with
  | nil => intro li st; exact Or.inl rfl
  | cons l ls ih =>
    intro li st
    obtain ⟨s, g⟩ := st
    have hrw : (Day12.scanRows li (l :: ls) (s, g)).1.2 =
        (Day12.scanRows (li + 1) ls (Day12.scanRow li 0 l.toList (s, g)).1).1.2 := rfl
    rcases ih (li + 1) (Day12.scanRow li 0 l.toList (s, g)).1 with h | ⟨j, row, k, hj, hk, h⟩
    · rcases scanRow_goal li l.toList 0 s g with h2 | ⟨k, hk, h2⟩
      · exact Or.inl (by rw [hrw, h, h2])
      · refine Or.inr ⟨0, l, k, by simp, hk, ?_⟩
        rw [hrw, h, h2]
        simp
    · refine Or.inr ⟨j + 1, row, k, by simp [hj], hk, ?_⟩
      rw [hrw, h]
      have : li + 1 + j = li + (j + 1) := by omega
      rw [this]

/-- C2 (amended): `from_lines` maps `'a'..'z'` to elevations 0..25, maps the
start marker `S` to elevation 1 and the goal marker `E` to elevation 26, and
records coordinates of an `S` and an `E` occurrence of the input as `start`
and `goal`. -/
theorem day12_fromLines_spec :
    ∀ (input : List String) (hm : Day12.Heightmap),
    Day12.Heightmap.fromLines input = some hm →
    hm.map.values = (input.map (fun l => l.toList.map Day12.charElev)).flatten ∧
    (∃ row, input[hm.start.2]? = some row ∧ row.toList[hm.start.1]? = some 'S') ∧
    (∃ row, input[hm.goal.2]? = some row ∧ row.toList[hm.goal.1]? = some 'E') ∧
    Day12.charElev 'S' = 1 ∧ Day12.charElev 'E' = 26 ∧
    (∀ c : Char, 'a' ≤ c → c ≤ 'z' → Day12.charElev c = c.toNat - 'a'.toNat) := by
  intro input hm h
  match input with
  | [] => exact Option.noConfusion h
  | first :: rest =>
    rw [Day12.Heightmap.fromLines] at h
    rcases hs : (Day12.scanRows 1 rest (Day12.scanRow 0 0 first.toList (none, none)).1).1.1
      with _ | s <;>
      rcases hg : (Day12.scanRows 1 rest (Day12.scanRow 0 0 first.toList (none, none)).1).1.2
      with _ | g <;>
      rw [hs, hg] at h <;> try exact Option.noConfusion h
    injection h with h'
    subst h'
    refine ⟨?_, ?_, ?_, rfl, rfl, ?_⟩
    · show (Day12.scanRow 0 0 first.toList (none, none)).2 ++
        (Day12.scanRows 1 rest (Day12.scanRow 0 0 first.toList (none, none)).1).2.flatten = _
      rw [scanRow_vals, scanRows_vals]
      simp [List.flatten_cons]
    · show ∃ row, (first :: rest)[(s : Nat × Nat).2]? = some row ∧
        row.toList[(s : Nat × Nat).1]? = some 'S'
      rcases scanRows_start rest 1 (Day12.scanRow 0 0 first.toList (none, none)).1
        with h2 | ⟨j, row, k, hj, hk, h2⟩
      · rcases scanRow_start 0 first.toList 0 none none with h3 | ⟨k, hk, h3⟩
        · rw [hs, h3] at h2
          exact Option.noConfusion h2
        · rw [hs, h3] at h2
          injection h2 with h2'
          subst h2'
          exact ⟨first, by simp, by simpa using hk⟩
      · rw [hs] at h2
        injection h2 with h2'
        subst h2'
        refine ⟨row, ?_, hk⟩
        rw [show (1 : Nat) + j = j + 1 from by omega]
        simpa using hj
    · show ∃ row, (first :: rest)[(g : Nat × Nat).2]? = some row ∧
        row.toList[(g : Nat × Nat).1]? = some 'E'
      rcases scanRows_goal rest 1 (Day12.scanRow 0 0 first.toList (none, none)).1
        with h2 | ⟨j, row, k, hj, hk, h2⟩
      · rcases scanRow_goal 0 first.toList 0 none none with h3 | ⟨k, hk, h3⟩
        · rw [hg, h3] at h2
          exact Option.noConfusion h2
        · rw [hg, h3] at h2
          injection h2 with h2'
          subst h2'
          exact ⟨first, by simp, by simpa using hk⟩
      · rw [hg] at h2
        injection h2 with h2'
        subst h2'
        refine ⟨row, ?_, hk⟩
        rw [show (1 : Nat) + j = j + 1 from by omega]
        simpa using hj
    · intro c h1 h2
      have hS : ¬ c = 'S' := by
        rintro rfl
        revert h1
        decide
      have hE : ¬ c = 'E' := by
        rintro rfl
        revert h1
        decide
      simp [Day12.charElev, hS, hE]

/-- C2 witness: on the single row `"SE"`, the parsed values are the
elevations of the two markers and the recorded coordinates point at them. -/
theorem day12_fromLines_spec_witness :
    (Day12.Heightmap.mk (0, 0) (1, 0) (Field2D.mk [1, 26] 2)).map.values =
      (["SE"].map (fun l => l.toList.map Day12.charElev)).flatten ∧
    Day12.charElev 'S' = 1 ∧ Day12.charElev 'E' = 26 := by
  have h := day12_fromLines_spec ["SE"]
    (Day12.Heightmap.mk (0, 0) (1, 0) (Field2D.mk [1, 26] 2)) (by decide)
  exact ⟨h.1, h.2.2.2.1, h.2.2.2.2.1⟩

lemma popMax_cons_isSome (a : Day12.State) (t : List Day12.State) :
    (Day12.popMax (a :: t)).isSome := by
  rw [Day12.popMax]
  cases hpt : Day12.popMax t with
  | none => rfl
  | some mr =>
    obtain ⟨m, rest'⟩ := mr
    show (if Day12.stateLtB a m then some (m, a :: rest') else some (a, m :: rest')).isSome
    split_ifs <;> rfl

lemma popMax_props :
    ∀ (heap : List Day12.State) (s : Day12.State) (rest : List Day12.State),
    Day12.popMax heap = some (s, rest) →
    s ∈ heap ∧ rest.length + 1 = heap.length ∧ (∀ t ∈ rest, t ∈ heap) := by
  intro heap
  induction heap with
  | nil => intro s rest h; exact Option.noConfusion h
  | cons a t ih =>
    intro s rest h
    rw [Day12.popMax] at h
    cases hpt : Day12.popMax t with
    | none =>
      rw [hpt] at h
      injection h with h'
      injection h' with h1 h2
      subst h1
      subst h2
      have ht : t = [] := by
        cases t with
        | nil => rfl
        | cons b u =>
          have hu := popMax_cons_isSome b u
          rw [hpt] at hu
          exact Bool.noConfusion hu
      subst ht
      exact ⟨by simp, by simp, by simp⟩
    | some mr =>
      obtain ⟨m, rest'⟩ := mr
      rw [hpt] at h
      obtain ⟨ihm, ihlen, ihsub⟩ := ih m rest' hpt
      have h2 : (if Day12.stateLtB a m = true then some (m, a :: rest')
          else some (a, m :: rest')) = some (s, rest) := h
      split_ifs at h2 with hlt
      · injection h2 with h'
        injection h' with h1 hrest
        subst h1
        subst hrest
        refine ⟨List.mem_cons_of_mem a ihm, by simp; omega, ?_⟩
        intro t' ht'
        rcases List.mem_cons.mp ht' with rfl | h''
        · exact List.mem_cons_self _ _
        · exact List.mem_cons_of_mem _ (ihsub t' h'')
      · injection h2 with h'
        injection h' with h1 hrest
        subst h1
        subst hrest
        refine ⟨List.mem_cons_self a t, by simp; omega, ?_⟩
        intro t' ht'
        rcases List.mem_cons.mp ht' with rfl | h''
        · exact List.mem_cons_of_mem _ ihm
        · exact List.mem_cons_of_mem _ (ihsub t' h'')

lemma sum_set_add : ∀ (l : List Nat) (i v : Nat), i < l.length →
    (l.set i v).sum + l.getD i 0 = l.sum + v := by
  intro l
  induction l with
  | nil => intro i v h; simp at h
  | cons a t ih =>
    intro i v h
    cases i with
    | zero => simp [List.set]; omega
    | succ i' =>
      simp only [List.set, List.sum_cons, List.getD_cons_succ]
      have := ih i' v (by simpa using h)
      omega

lemma getD_pos_lt : ∀ (l : List Nat) (i v : Nat), v < l.getD i 0 → i < l.length := by
  intro l i v h
  by_contra hge
  rw [List.getD_eq_default _ _ (by omega)] at h
  exact absurd h (by omega)

lemma sum_set_le : ∀ (l : List Nat) (i v : Nat), v ≤ l.getD i 0 →
    (l.set i v).sum ≤ l.sum := by
  intro l
  induction l with
  | nil => intro i v h; simp
  | cons a t ih =>
    intro i v h
    cases i with
    | zero =>
      simp only [List.getD_cons_zero] at h
      simp [List.set]
      omega
    | succ i' =>
      simp only [List.getD_cons_succ] at h
      simp only [List.set, List.sum_cons]
      have := ih i' v h
      omega

lemma sum_replicate_nat : ∀ (n x : Nat), (List.replicate n x).sum = n * x := by
  intro n x
  induction n with
  | zero => simp
  | succ n ih =>
    simp [List.replicate, ih]
    ring

lemma relaxStep_mu (cost : Nat) (hd : List Day12.State × Field2D Nat) (nb : Nat × Nat) :
    Day12.mu (Day12.relaxStep cost hd nb).1 (Day12.relaxStep cost hd nb).2 ≤
      Day12.mu hd.1 hd.2 := by
  rw [Day12.relaxStep]
  split_ifs with hlt
  · obtain ⟨heap, dist⟩ := hd
    simp only [Day12.mu, Field2D.setAt, List.length_cons]
    have hg : Field2D.get0 dist nb = dist.values.getD (nb.1 + nb.2 * dist.width) 0 := rfl
    rw [hg] at hlt
    have hidx : nb.1 + nb.2 * dist.width < dist.values.length := getD_pos_lt _ _ _ hlt
    have hsum := sum_set_add dist.values (nb.1 + nb.2 * dist.width) (cost + 1) hidx
    omega
  · exact le_refl _

lemma relax_foldl_mu (cost : Nat) :
    ∀ (ns : List (Nat × Nat)) (hd : List Day12.State × Field2D Nat),
    Day12.mu ((ns.foldl (Day12.relaxStep cost) hd)).1
      ((ns.foldl (Day12.relaxStep cost) hd)).2 ≤ Day12.mu hd.1 hd.2 := by
  intro ns
  induction ns with
  | nil => intro hd; exact le_refl _
  | cons nb ns ih =>
    intro hd
    exact le_trans (ih (Day12.relaxStep cost hd nb)) (relaxStep_mu cost hd nb)

lemma relax_foldl_mem (cost : Nat) :
    ∀ (ns : List (Nat × Nat)) (hd : List Day12.State × Field2D Nat) (t : Day12.State),
    t ∈ (ns.foldl (Day12.relaxStep cost) hd).1 →
    t ∈ hd.1 ∨ ∃ nb ∈ ns, t = Day12.State.mk (cost + 1) nb := by
  intro ns
  induction ns with
  | nil => intro hd t ht; exact Or.inl ht
  | cons nb ns ih =>
    intro hd t ht
    rcases ih (Day12.relaxStep cost hd nb) t ht with h | ⟨nb', hnb', rfl⟩
    · rw [Day12.relaxStep] at h
      split_ifs at h with hlt
      · rcases List.mem_cons.mp h with rfl | h'
        · exact Or.inr ⟨nb, by simp, rfl⟩
        · exact Or.inl h'
      · exact Or.inl h
    · exact Or.inr ⟨nb', by simp [hnb'], rfl⟩

lemma pathLoop_total (hm : Day12.Heightmap) :
    ∀ (fuel : Nat) (heap : List Day12.State) (dist : Field2D Nat),
    Day12.mu heap dist < fuel → (Day12.pathLoop hm fuel heap dist).isSome := by
  intro fuel
  induction fuel with
  | zero => intro heap dist h; exact absurd h (Nat.not_lt_zero _)
  | succ fuel ih =>
    intro heap dist h
    rw [Day12.pathLoop]
    cases hpop : Day12.popMax heap with
    | none => rfl
    | some sr =>
      obtain ⟨s, heap'⟩ := sr
      obtain ⟨hmem, hlen, hsub⟩ := popMax_props heap s heap' hpop
      show (if s.position = hm.goal then some (some s.cost)
        else if dist.get0 s.position < s.cost then Day12.pathLoop hm fuel heap' dist
        else Day12.pathLoop hm fuel
          (((hm.map.neighborsList s.position.1 s.position.2).filter
            (fun nb => hm.map.get0 nb ≤ hm.map.get0 s.position + 1)).foldl
              (Day12.relaxStep s.cost) (heap', dist)).1
          (((hm.map.neighborsList s.position.1 s.position.2).filter
            (fun nb => hm.map.get0 nb ≤ hm.map.get0 s.position + 1)).foldl
              (Day12.relaxStep s.cost) (heap', dist)).2).isSome
      by_cases hgoal : s.position = hm.goal
      · rw [if_pos hgoal]
        rfl
      · rw [if_neg hgoal]
        by_cases hstale : Field2D.get0 dist s.position < s.cost
        · rw [if_pos hstale]
          apply ih heap' dist
          simp only [Day12.mu] at h ⊢
          omega
        · rw [if_neg hstale]
          apply ih
          have hmu := relax_foldl_mu s.cost
            ((hm.map.neighborsList s.position.1 s.position.2).filter
              (fun nb => hm.map.get0 nb ≤ hm.map.get0 s.position + 1)) (heap', dist)
          simp only [Day12.mu] at h hmu ⊢
          omega

lemma pathLoop_unreach (hm : Day12.Heightmap) (hg : ¬ Day12.Reachable hm hm.goal) :
    ∀ (fuel : Nat) (heap : List Day12.State) (dist : Field2D Nat),
    (∀ s ∈ heap, Day12.Reachable hm s.position) →
    ∀ c : Nat, Day12.pathLoop hm fuel heap dist ≠ some (some c) := by
  intro fuel
  induction fuel with
  | zero => intro heap dist hinv c h; exact Option.noConfusion h
  | succ fuel ih =>
    intro heap dist hinv c h
    rw [Day12.pathLoop] at h
    cases hpop : Day12.popMax heap with
    | none =>
      rw [hpop] at h
      injection h with h'
      exact Option.noConfusion h'
    | some sr =>
      obtain ⟨s, heap'⟩ := sr
      rw [hpop] at h
      obtain ⟨hmem, hlen, hsub⟩ := popMax_props heap s heap' hpop
      have h2 : (if s.position = hm.goal then some (some s.cost)
          else if dist.get0 s.position < s.cost then Day12.pathLoop hm fuel heap' dist
          else Day12.pathLoop hm fuel
            (((hm.map.neighborsList s.position.1 s.position.2).filter
              (fun nb => hm.map.get0 nb ≤ hm.map.get0 s.position + 1)).foldl
                (Day12.relaxStep s.cost) (heap', dist)).1
            (((hm.map.neighborsList s.position.1 s.position.2).filter
              (fun nb => hm.map.get0 nb ≤ hm.map.get0 s.position + 1)).foldl
                (Day12.relaxStep s.cost) (heap', dist)).2) = some (some c) := h
      by_cases hgoal : s.position = hm.goal
      · exact hg (hgoal ▸ hinv s hmem)
      · rw [if_neg hgoal] at h2
        by_cases hstale : Field2D.get0 dist s.position < s.cost
        · rw [if_pos hstale] at h2
          exact ih heap' dist (fun t ht => hinv t (hsub t ht)) c h2
        · rw [if_neg hstale] at h2
          refine ih _ _ ?_ c h2
          intro t ht
          rcases relax_foldl_mem s.cost _ (heap', dist) t ht with h' | ⟨nb, hnb, rfl⟩
          · exact hinv t (hsub t h')
          · have hnb' := List.mem_filter.mp hnb
            exact Day12.Reachable.step (hinv s hmem)
              ⟨hnb'.1, by simpa using hnb'.2⟩

/-- C7: whenever the goal is unreachable from the start along climbing edges
(and the start is in bounds, so no indexing panics), `path_search` terminates
by emptying its queue within the provided fuel and returns `None` — the
`usize::MAX` sentinel never leaks as a result. -/
theorem pathSearch_unreachable_none :
    ∀ (hm : Day12.Heightmap),
    hm.start.1 < hm.map.width → hm.start.2 < hm.map.height →
    ¬ Day12.Reachable hm hm.goal →
    Day12.pathLoop hm (Day12.searchFuel hm) [⟨0, hm.start⟩] hm.initDist = some none ∧
    hm.pathSearch = none := by
  intro hm hs1 hs2 hg
  have hsum : (hm.initDist).values.sum ≤
      hm.map.width * hm.map.height * Day12.UMAX := by
    show ((List.replicate (hm.map.width * hm.map.height) Day12.UMAX).set
      (hm.start.1 + hm.start.2 * hm.map.width) 0).sum ≤ _
    refine le_trans (sum_set_le _ _ _ (Nat.zero_le _)) ?_
    rw [sum_replicate_nat]
  have hmu : Day12.mu [⟨0, hm.start⟩] hm.initDist < Day12.searchFuel hm := by
    show 2 * (hm.initDist).values.sum + 1 <
      2 * (hm.map.width * hm.map.height * Day12.UMAX) + 2
    omega
  have htotal := pathLoop_total hm (Day12.searchFuel hm) [⟨0, hm.start⟩] hm.initDist hmu
  have hinv : ∀ s ∈ ([⟨0, hm.start⟩] : List Day12.State),
      Day12.Reachable hm s.position := by
    intro s hs
    rw [List.mem_singleton] at hs
    subst hs
    exact Day12.Reachable.start
  have hno := pathLoop_unreach hm hg (Day12.searchFuel hm) [⟨0, hm.start⟩]
    hm.initDist hinv
  obtain ⟨r, hr⟩ := Option.isSome_iff_exists.mp htotal
  cases r with
  | none =>
    refine ⟨hr, ?_⟩
    rw [Day12.Heightmap.pathSearch, hr]
    rfl
  | some c => exact absurd hr (hno c)

lemma exUnreach_reach_eq : ∀ p, Day12.Reachable Day12.exUnreach p → p = (0, 0) := by
  intro p h
  induction h with
  | start => rfl
  | step hr hs ih =>
    rename_i q
    subst ih
    obtain ⟨hmem, hle⟩ := hs
    have hlist : Field2D.neighborsList Day12.exUnreach.map 0 0 = [(1, 0)] := by decide
    rw [show ((0, 0) : Nat × Nat).1 = 0 from rfl,
      show ((0, 0) : Nat × Nat).2 = 0 from rfl, hlist] at hmem
    have hq : q = (1, 0) := List.mem_singleton.mp hmem
    subst hq
    exact absurd hle (by decide)

/-- C7 witness: on the 2-cell grid with elevations `[0, 25]`, the goal is
unreachable and `path_search` returns `None`. -/
theorem pathSearch_unreachable_none_witness :
    ¬ Day12.Reachable Day12.exUnreach Day12.exUnreach.goal ∧
    Day12.exUnreach.pathSearch = none := by
  have hnr : ¬ Day12.Reachable Day12.exUnreach Day12.exUnreach.goal := by
    intro h
    have h0 := exUnreach_reach_eq _ h
    exact absurd h0 (by decide)
  exact ⟨hnr,
    (pathSearch_unreachable_none Day12.exUnreach (by decide) (by decide) hnr).2⟩
